import Mathlib

/-!
Shallow embedding of the evacuation-planning core of the
Digital-Twin-Driven-Flood-Evacuation-System repository
(src/UrbanFloodReact/backend/evacuation_ga.py and
src/UrbanFloodReact/backend/genetic_algorithm/*.py).

Numbers that the Python code manipulates as floats are modelled as rationals.
Matrix entries that can be +infinity (numpy inf) are modelled as Option ℚ with
none standing for +infinity.  Randomness (random.random, random.choice,
random.randint, random.sample) is modelled by explicit oracle arguments so that
theorems quantify over every outcome of the random choices.  External library
calls (networkx Dijkstra and shortest_path, osmnx nearest-node lookup) are
modelled as oracle arguments as well, with none standing for a raised
exception.
-/

namespace FloodEvac

/-- An at-risk population cluster: one record of the at_risk_nodes input of
GeneticEvacuationPlanner (keys id, pop, lat, lon). -/
structure Cluster where
  id : Nat
  pop : Int
  lat : ℚ
  lon : ℚ
deriving DecidableEq, Inhabited

/-- A shelter: one record of the safe_shelters input of
GeneticEvacuationPlanner (keys id, node_id, capacity, lat, lon). -/
structure Shelter where
  id : String
  node_id : Option Nat
  capacity : Int
  lat : ℚ
  lon : ℚ
deriving DecidableEq, Inhabited

/-- Class constant FLOOD_PENALTY_FACTOR = 5.0. -/
def FLOOD_PENALTY_FACTOR : ℚ := 5

/-- Class constant CAPACITY_PENALTY = 100000. -/
def CAPACITY_PENALTY : Int := 100000

/-- Class constant WALKING_SPEED_MS = 1.2. -/
def WALKING_SPEED_MS : ℚ := 6 / 5

/-- A cost-matrix entry: none stands for numpy +infinity. -/
abbrev Entry := Option ℚ

/-- Edge weight computed by GeneticEvacuationPlanner._add_flood_edge_weights
in evacuation_ga.py: base * (1 + FLOOD_PENALTY_FACTOR * avg_depth), where the
base length defaults to 1.0 when the edge has no length attribute.  This
version applies no positivity clamp. -/
def floodWeightGA (len? : Option ℚ) (depthU depthV : ℚ) : ℚ :=
  (len?.getD 1) * (1 + FLOOD_PENALTY_FACTOR * ((depthU + depthV) / 2))

/-- Edge weight computed by SetupMixin._add_flood_edge_weights in
genetic_algorithm/setup_mixin.py: the flood factor and the congestion factor
(min 5 of actual over free-flow time, only when the edge carries a
traffic_time attribute and the actual time exceeds the free-flow estimate
max(0.1, length / 13.8)) applied to the base length, clamped below by
max(0.1, ...). -/
def floodWeightSetup (len? : Option ℚ) (depthU depthV : ℚ) (traffic? : Option ℚ) : ℚ :=
  let baseLen := len?.getD 1
  let floodFactor := 1 + FLOOD_PENALTY_FACTOR * ((depthU + depthV) / 2)
  let freeFlow := max (1 / 10) (baseLen / (69 / 5))
  let trafficFactor :=
    match traffic? with
    | none => 1
    | some t => if freeFlow < t then min 5 (t / freeFlow) else 1
  max (1 / 10) (baseLen * floodFactor * trafficFactor)

/-- Sentinel substitution of _fitness: an infinite matrix entry is replaced by
the large finite value 1,000,000. -/
def sentinel (x : Entry) : ℚ := x.getD 1000000

/-- Total population a chromosome assigns to shelter index j: the value
shelter_counts[j] accumulated by the loop of _fitness. -/
def assignedPop (clusters : List Cluster) (chrom : List Nat) (j : Nat) : Int :=
  ∑ i ∈ Finset.range chrom.length,
    if chrom.getD i 0 = j then (clusters.getD i default).pop else 0

/-- Person-weighted total of one cost matrix over a chromosome, with the
sentinel substituted for infinite entries; this is the total_dist (resp.
total_time) accumulator of _fitness. -/
def weightedTotal (clusters : List Cluster) (m : Nat → Nat → Entry)
    (chrom : List Nat) : ℚ :=
  ∑ i ∈ Finset.range chrom.length,
    sentinel (m i (chrom.getD i 0)) * ((clusters.getD i default).pop : ℚ)

/-- Penalty contribution of shelter index j in _fitness. -/
def penaltyAt (clusters : List Cluster) (shelters : List Shelter)
    (chrom : List Nat) (j : Nat) : Int :=
  if (shelters.getD j default).capacity < assignedPop clusters chrom j
  then (assignedPop clusters chrom j - (shelters.getD j default).capacity) ^ 2
        * CAPACITY_PENALTY
  else 0

/-- Fitness translated from GeneticEvacuationPlanner._fitness in
evacuation_ga.py (textually identical to EvolutionMixin._fitness):
total_dist + 0.5 * total_time + penalty, where the penalty is summed over the
shelter indices that actually occur in the chromosome (the keys of the
defaultdict shelter_counts). -/
def fitness (clusters : List Cluster) (shelters : List Shelter)
    (dist tmat : Nat → Nat → Entry) (chrom : List Nat) : ℚ :=
  weightedTotal clusters dist chrom + (1 / 2) * weightedTotal clusters tmat chrom +
    ∑ j ∈ chrom.toFinset, ((penaltyAt clusters shelters chrom j : Int) : ℚ)

/-- Total distance exactly as claim C1 words it: the sum over all clusters i of
dist[i, chromosome[i]] * population[i], with the sentinel substitution. -/
def claimTotal (clusters : List Cluster) (m : Nat → Nat → Entry)
    (chrom : List Nat) : ℚ :=
  ∑ i ∈ Finset.range clusters.length,
    sentinel (m i (chrom.getD i 0)) * ((clusters.getD i default).pop : ℚ)

/-- Capacity penalty exactly as claim C1 words it: summed over every shelter
whose assigned population exceeds its capacity. -/
def claimPenalty (clusters : List Cluster) (shelters : List Shelter)
    (chrom : List Nat) : ℚ :=
  ∑ j ∈ Finset.range shelters.length,
    ((penaltyAt clusters shelters chrom j : Int) : ℚ)

/-- Helper: an in-bounds getD is a member of the list. -/
theorem getD_mem_of_lt {α : Type} (l : List α) (d : α) (i : Nat)
    (h : i < l.length) : l.getD i d ∈ l := by
  rw [List.getD_eq_getElem l d h]
  exact List.getElem_mem h

/-- Helper: a shelter index that does not occur in the chromosome receives no
population. -/
theorem assignedPop_eq_zero (clusters : List Cluster) (chrom : List Nat)
    (j : Nat) (hj : j ∉ chrom) : assignedPop clusters chrom j = 0 := by
  unfold assignedPop
  refine Finset.sum_eq_zero ?_
  intro i hi
  rw [Finset.mem_range] at hi
  rw [if_neg]
  intro h
  exact hj (h ▸ getD_mem_of_lt chrom 0 i hi)

/-- Shared helper: the source fitness equals the claim formula whenever every
gene is a valid shelter index, every capacity is non-negative (the data model
makes capacities positive), and the chromosome has one gene per cluster. -/
theorem fitness_formula (clusters : List Cluster) (shelters : List Shelter)
    (dist tmat : Nat → Nat → Entry) (chrom : List Nat)
    (hlen : chrom.length = clusters.length)
    (hgene : ∀ g ∈ chrom, g < shelters.length)
    (hcap : ∀ s ∈ shelters, 0 ≤ s.capacity) :
    fitness clusters shelters dist tmat chrom =
      claimTotal clusters dist chrom + (1 / 2) * claimTotal clusters tmat chrom +
        claimPenalty clusters shelters chrom := by
  have htot : ∀ m : Nat → Nat → Entry,
      weightedTotal clusters m chrom = claimTotal clusters m chrom := by
    intro m
    unfold weightedTotal claimTotal
    rw [hlen]
  have hsub : chrom.toFinset ⊆ Finset.range shelters.length := by
    intro j hj
    rw [List.mem_toFinset] at hj
    exact Finset.mem_range.mpr (hgene j hj)
  have hzero : ∀ j ∈ Finset.range shelters.length, j ∉ chrom.toFinset →
      ((penaltyAt clusters shelters chrom j : Int) : ℚ) = 0 := by
    intro j hj hnj
    rw [List.mem_toFinset] at hnj
    rw [Finset.mem_range] at hj
    have ha : assignedPop clusters chrom j = 0 :=
      assignedPop_eq_zero clusters chrom j hnj
    have hc : 0 ≤ (shelters.getD j default).capacity :=
      hcap _ (getD_mem_of_lt shelters default j hj)
    unfold penaltyAt
    rw [ha, if_neg (by omega)]
    simp
  have hpen : ∑ j ∈ chrom.toFinset, ((penaltyAt clusters shelters chrom j : Int) : ℚ) =
      claimPenalty clusters shelters chrom :=
    Finset.sum_subset hsub hzero
  unfold fitness
  rw [htot dist, htot tmat, hpen]

/-- C1: for every chromosome whose genes are valid shelter indices (one gene
per cluster, capacities non-negative as the data model requires), the fitness
value equals total_dist + 0.5 * total_time + capacity_penalty, where the
totals use the 1,000,000 sentinel for infinite entries and the penalty sums
(assigned - capacity)^2 * 100,000 over every shelter whose assigned
population exceeds its capacity. -/
theorem c1_fitness_matches_formula (clusters : List Cluster)
    (shelters : List Shelter) (dist tmat : Nat → Nat → Entry)
    (chrom : List Nat)
    (hlen : chrom.length = clusters.length)
    (hgene : ∀ g ∈ chrom, g < shelters.length)
    (hcap : ∀ s ∈ shelters, 0 ≤ s.capacity) :
    fitness clusters shelters dist tmat chrom =
      claimTotal clusters dist chrom + (1 / 2) * claimTotal clusters tmat chrom +
        claimPenalty clusters shelters chrom :=
  fitness_formula clusters shelters dist tmat chrom hlen hgene hcap

/-- C1 witness: the fitness equation evaluated on a concrete one-cluster,
one-shelter instance whose time matrix entry is infinite. -/
theorem c1_fitness_matches_formula_witness :
    fitness [⟨1, 10, 0, 0⟩] [⟨"S1", some 5, 20, 1, 1⟩]
        (fun _ _ => some 7) (fun _ _ => none) [0] =
      claimTotal [⟨1, 10, 0, 0⟩] (fun _ _ => some 7) [0] +
        (1 / 2) * claimTotal [⟨1, 10, 0, 0⟩] (fun _ _ => none) [0] +
        claimPenalty [⟨1, 10, 0, 0⟩] [⟨"S1", some 5, 20, 1, 1⟩] [0] :=
  c1_fitness_matches_formula _ _ _ _ _ (by decide) (by decide) (by decide)

/-- C8 counterexample: the cost model of evacuation_ga.py applies no clamp, so
an edge of length 0 with dry endpoints receives flood weight 0, which is not
strictly positive. -/
theorem c8_counterexample :
    floodWeightGA (some 0) 0 0 = 0 ∧ ¬ 0 < floodWeightGA (some 0) 0 0 := by
  constructor <;> norm_num [floodWeightGA, FLOOD_PENALTY_FACTOR]

/-- C8 amended: the setup_mixin.py cost model clamps its weight to the floor
0.1 and is strictly positive for every input, length 0 included; the
evacuation_ga.py cost model applies no clamp and its weight is strictly
positive only when the edge length is strictly positive and the endpoint
depths are non-negative. -/
theorem c8_flood_weight_positive :
    (∀ (len? : Option ℚ) (depthU depthV : ℚ) (traffic? : Option ℚ),
        0 < floodWeightSetup len? depthU depthV traffic?) ∧
    (∀ len depthU depthV : ℚ, 0 < len → 0 ≤ depthU → 0 ≤ depthV →
        0 < floodWeightGA (some len) depthU depthV) := by
  constructor
  · intro len? depthU depthV traffic?
    unfold floodWeightSetup
    exact lt_of_lt_of_le (by norm_num) (le_max_left _ _)
  · intro len depthU depthV hlen hu hv
    unfold floodWeightGA FLOOD_PENALTY_FACTOR
    simp only [Option.getD_some]
    have hdepth : (0 : ℚ) ≤ (depthU + depthV) / 2 := by positivity
    have hfac : (0 : ℚ) < 1 + 5 * ((depthU + depthV) / 2) := by linarith
    exact mul_pos hlen hfac

/-- C8 witness: both cost-model positivity statements instantiated on concrete
edges. -/
theorem c8_flood_weight_positive_witness :
    0 < floodWeightSetup (some 0) 0 0 none ∧ 0 < floodWeightGA (some 3) 0 0 :=
  ⟨c8_flood_weight_positive.1 (some 0) 0 0 none,
   c8_flood_weight_positive.2 3 0 0 (by norm_num) le_rfl le_rfl⟩

/-- Boolean comparison on matrix entries, none (+infinity) comparing above
every finite value; this is the order np.argsort applies to a row that may
contain inf. -/
def leEntry (a b : Entry) : Bool :=
  match a, b with
  | _, none => true
  | none, some _ => false
  | some x, some y => decide (x ≤ y)

/-- Possible outcome of np.argsort on the length-n value vector vals: a
permutation of the index range that is non-decreasing in the values.  The
numpy default sort is unstable, so every such permutation is a possible
outcome and theorems quantify over all of them. -/
def IsArgsortBy {α : Type} (le : α → α → Bool) (vals : Nat → α) (n : Nat)
    (ord : List Nat) : Prop :=
  ord.Perm (List.range n) ∧ ord.Sorted (fun a b => le (vals a) (vals b) = true)

/-- Helper: membership in an argsort outcome is exactly being an in-range
index. -/
theorem IsArgsortBy.mem_iff {α : Type} {le : α → α → Bool} {vals : Nat → α}
    {n : Nat} {ord : List Nat} (h : IsArgsortBy le vals n ord) (j : Nat) :
    j ∈ ord ↔ j < n := by
  rw [h.1.mem_iff, List.mem_range]

/-- Helper: an argsort outcome has one entry per index. -/
theorem IsArgsortBy.length_eq {α : Type} {le : α → α → Bool} {vals : Nat → α}
    {n : Nat} {ord : List Nat} (h : IsArgsortBy le vals n ord) :
    ord.length = n := by
  rw [h.1.length_eq, List.length_range]

/-- Strict comparison of a fresh ratio against the running minimum of the
greedy loop; the running minimum starts as float inf, modelled by none. -/
def ltMin? (r : ℚ) (minR : Option ℚ) : Bool :=
  match minR with
  | none => true
  | some m => decide (r < m)

/-- Overflow ratio computed by _compute_greedy_chromosome:
(assigned_counts[j] + pop) / max(1.0, capacities[j]). -/
def ratioFn (p : Int) (caps : List Int) (occ : Nat → Int) (j : Nat) : ℚ :=
  ((occ j + p : Int) : ℚ) / max 1 ((caps.getD j 0 : Int) : ℚ)

/-- The inner shelter loop of _compute_greedy_chromosome: walk the argsorted
shelter indices, break at the first shelter whose ratio is at most 1, and
otherwise keep the first shelter attaining the strictly smallest ratio. -/
def pickGo (p : Int) (caps : List Int) (occ : Nat → Int) :
    List Nat → Nat → Option ℚ → Nat
  | [], best, _ => best
  | j :: rest, best, minR =>
    if ratioFn p caps occ j ≤ 1 then j
    else if ltMin? (ratioFn p caps occ j) minR then
      pickGo p caps occ rest j (some (ratioFn p caps occ j))
    else pickGo p caps occ rest best minR

/-- Shelter selection for one cluster in _compute_greedy_chromosome.  The
initial chosen = int(order[0]) raises IndexError when the argsorted row is
empty, modelled as none. -/
def pickShelter (p : Int) (caps : List Int) (occ : Nat → Int) :
    List Nat → Option Nat
  | [] => none
  | j0 :: rest => some (pickGo p caps occ (j0 :: rest) j0 none)

/-- The cluster loop of _compute_greedy_chromosome; rem counts the remaining
clusters and i is the index of the next cluster, occ the running
assigned_counts. -/
def greedyAux (pops : Nat → Int) (caps : List Int) (ordOf : Nat → List Nat) :
    Nat → Nat → (Nat → Int) → Option (List Nat)
  | 0, _, _ => some []
  | rem + 1, i, occ =>
    match pickShelter (pops i) caps occ (ordOf i) with
    | none => none
    | some c =>
      match greedyAux pops caps ordOf rem (i + 1)
          (fun j => if j = c then occ j + pops i else occ j) with
      | none => none
      | some rest => some (c :: rest)

/-- GeneticEvacuationPlanner._compute_greedy_chromosome in evacuation_ga.py
(textually identical to SetupMixin._compute_greedy_chromosome), with ordOf i
standing for the outcome of np.argsort(dist_matrix[i]). -/
def greedyChromosome (clusters : List Cluster) (shelters : List Shelter)
    (ordOf : Nat → List Nat) : Option (List Nat) :=
  greedyAux (fun i => (clusters.getD i default).pop)
    (shelters.map (fun s => s.capacity)) ordOf clusters.length 0 (fun _ => 0)

/-- Room test as claim C3 words it: the running occupied count plus the
incoming population does not exceed the capacity. -/
def roomAt (p : Int) (caps : List Int) (occ : Nat → Int) (j : Nat) : Bool :=
  decide (occ j + p ≤ caps.getD j 0)

/-- One greedy step as claim C3 describes it: the chosen shelter is the first
one, in the argsorted order, with room; when no shelter has room it is a
shelter minimizing the overflow ratio among all walked shelters. -/
def PickSpec (p : Int) (caps : List Int) (occ : Nat → Int) (ord : List Nat)
    (c : Nat) : Prop :=
  match ord.find? (roomAt p caps occ) with
  | some c0 => c = c0
  | none => c ∈ ord ∧ ∀ j ∈ ord, ratioFn p caps occ c ≤ ratioFn p caps occ j

/-- Helper: with a positive integer capacity, the ratio test of the source and
the room test of the claim agree. -/
theorem ratio_le_one_iff (p : Int) (caps : List Int) (occ : Nat → Int)
    (j : Nat) (hcap : 0 < caps.getD j 0) :
    ratioFn p caps occ j ≤ 1 ↔ occ j + p ≤ caps.getD j 0 := by
  unfold ratioFn
  have h1 : (1 : ℚ) ≤ ((caps.getD j 0 : Int) : ℚ) := by exact_mod_cast hcap
  rw [max_eq_right h1, div_le_one (by linarith)]
  exact_mod_cast Iff.rfl

/-- Helper: when some walked shelter has room, the source loop returns the
first such shelter, whatever the tracked overflow state is. -/
theorem pickGo_of_find (p : Int) (caps : List Int) (occ : Nat → Int) :
    ∀ (ord : List Nat) (best : Nat) (minR : Option ℚ) (c0 : Nat),
      (∀ j ∈ ord, 0 < caps.getD j 0) →
      ord.find? (roomAt p caps occ) = some c0 →
      pickGo p caps occ ord best minR = c0 := by
  intro ord
  induction ord with
  | nil => intro best minR c0 _ hfind; simp at hfind
  | cons j rest ih =>
    intro best minR c0 hcaps hfind
    by_cases hroom : roomAt p caps occ j = true
    · rw [List.find?_cons_of_pos _ hroom] at hfind
      have hj : occ j + p ≤ caps.getD j 0 := of_decide_eq_true hroom
      have hle : ratioFn p caps occ j ≤ 1 :=
        (ratio_le_one_iff p caps occ j (hcaps j (by simp))).mpr hj
      rw [pickGo, if_pos hle]
      exact (Option.some_inj.mp hfind)
    · rw [List.find?_cons_of_neg _ hroom] at hfind
      have hj : ¬ occ j + p ≤ caps.getD j 0 := fun h => hroom (decide_eq_true h)
      have hle : ¬ ratioFn p caps occ j ≤ 1 := fun h =>
        hj ((ratio_le_one_iff p caps occ j (hcaps j (by simp))).mp h)
      rw [pickGo, if_neg hle]
      by_cases hlt : ltMin? (ratioFn p caps occ j) minR = true
      · rw [if_pos hlt]
        exact ih j (some (ratioFn p caps occ j)) c0
          (fun j hj => hcaps j (by simp [hj])) hfind
      · rw [if_neg hlt]
        exact ih best minR c0 (fun j hj => hcaps j (by simp [hj])) hfind

/-- Helper: when no walked shelter has room, the source loop returns a walked
shelter (or the initial one) whose ratio is minimal among the walked shelters
and not above the ratio of the initial one. -/
theorem pickGo_min (p : Int) (caps : List Int) (occ : Nat → Int) :
    ∀ (ord : List Nat) (best : Nat),
      (∀ j ∈ ord, ¬ ratioFn p caps occ j ≤ 1) →
      (pickGo p caps occ ord best (some (ratioFn p caps occ best)) = best ∨
        pickGo p caps occ ord best (some (ratioFn p caps occ best)) ∈ ord) ∧
      ratioFn p caps occ (pickGo p caps occ ord best (some (ratioFn p caps occ best))) ≤
        ratioFn p caps occ best ∧
      ∀ j ∈ ord,
        ratioFn p caps occ (pickGo p caps occ ord best (some (ratioFn p caps occ best))) ≤
          ratioFn p caps occ j := by
  intro ord
  induction ord with
  | nil =>
    intro best _
    refine ⟨Or.inl rfl, ?_, ?_⟩
    · rw [pickGo]
    · intro j hj; simp at hj
  | cons j rest ih =>
    intro best hno
    have hj : ¬ ratioFn p caps occ j ≤ 1 := hno j (by simp)
    have hrest : ∀ j ∈ rest, ¬ ratioFn p caps occ j ≤ 1 :=
      fun j hjm => hno j (by simp [hjm])
    by_cases hlt : ltMin? (ratioFn p caps occ j) (some (ratioFn p caps occ best)) = true
    · have hjb : ratioFn p caps occ j < ratioFn p caps occ best := of_decide_eq_true hlt
      have heq : pickGo p caps occ (j :: rest) best (some (ratioFn p caps occ best)) =
          pickGo p caps occ rest j (some (ratioFn p caps occ j)) := by
        rw [pickGo, if_neg hj, if_pos hlt]
      obtain ⟨hmem, hle, hall⟩ := ih j hrest
      rw [heq]
      refine ⟨?_, ?_, ?_⟩
      · rcases hmem with h | h
        · exact Or.inr (by simp [h])
        · exact Or.inr (by simp [h])
      · exact le_trans hle (le_of_lt hjb)
      · intro j2 hj2
        rcases List.mem_cons.mp hj2 with h | h
        · exact h ▸ hle
        · exact hall j2 h
    · have hjb : ratioFn p caps occ best ≤ ratioFn p caps occ j := by
        have h2 : ¬ ratioFn p caps occ j < ratioFn p caps occ best :=
          fun h => hlt (decide_eq_true h)
        exact le_of_not_lt h2
      have heq : pickGo p caps occ (j :: rest) best (some (ratioFn p caps occ best)) =
          pickGo p caps occ rest best (some (ratioFn p caps occ best)) := by
        rw [pickGo, if_neg hj, if_neg hlt]
      obtain ⟨hmem, hle, hall⟩ := ih best hrest
      rw [heq]
      refine ⟨?_, hle, ?_⟩
      · rcases hmem with h | h
        · exact Or.inl h
        · exact Or.inr (by simp [h])
      · intro j2 hj2
        rcases List.mem_cons.mp hj2 with h | h
        · exact h ▸ le_trans hle hjb
        · exact hall j2 h

/-- Helper: the selection step of the source satisfies the claim description
PickSpec whenever the walked capacities are positive. -/
theorem pickShelter_spec (p : Int) (caps : List Int) (occ : Nat → Int)
    (ord : List Nat) (c : Nat)
    (hcaps : ∀ j ∈ ord, 0 < caps.getD j 0)
    (h : pickShelter p caps occ ord = some c) :
    PickSpec p caps occ ord c := by
  match ord with
  | [] => simp [pickShelter] at h
  | j0 :: rest =>
    rw [pickShelter, Option.some_inj] at h
    unfold PickSpec
    by_cases hroom : roomAt p caps occ j0 = true
    · rw [List.find?_cons_of_pos _ hroom]
      have hle : ratioFn p caps occ j0 ≤ 1 :=
        (ratio_le_one_iff p caps occ j0 (hcaps j0 (by simp))).mpr
          (of_decide_eq_true hroom)
      rw [← h, pickGo, if_pos hle]
    · rw [List.find?_cons_of_neg _ hroom]
      have hj0 : ¬ ratioFn p caps occ j0 ≤ 1 := fun hle =>
        hroom (decide_eq_true
          ((ratio_le_one_iff p caps occ j0 (hcaps j0 (by simp))).mp hle))
      have hpg : pickGo p caps occ (j0 :: rest) j0 none =
          pickGo p caps occ rest j0 (some (ratioFn p caps occ j0)) := by
        have htrue : ltMin? (ratioFn p caps occ j0) none = true := rfl
        rw [pickGo, if_neg hj0, if_pos htrue]
      cases hfind : rest.find? (roomAt p caps occ) with
      | some c0 =>
        rw [← h, hpg]
        exact pickGo_of_find p caps occ rest j0 (some (ratioFn p caps occ j0)) c0
          (fun j hj => hcaps j (by simp [hj])) hfind
      | none =>
        have hnone : (j0 :: rest).find? (roomAt p caps occ) = none := by
          rw [List.find?_cons_of_neg _ hroom, hfind]
        have hno : ∀ j ∈ rest, ¬ ratioFn p caps occ j ≤ 1 := by
          intro j hj hle
          have hmem := List.find?_eq_none.mp hfind j hj
          exact hmem (decide_eq_true
            ((ratio_le_one_iff p caps occ j (hcaps j (by simp [hj]))).mp hle))
        obtain ⟨hmem, hle, hall⟩ := pickGo_min p caps occ rest j0 hno
        rw [← h, hpg]
        constructor
        · rcases hmem with h2 | h2
          · simp [h2]
          · simp [h2]
        · intro j hj
          rcases List.mem_cons.mp hj with h2 | h2
          · exact h2 ▸ hle
          · exact hall j h2

/-- Helper: the claim description always selects one of the walked shelters. -/
theorem PickSpec.mem {p : Int} {caps : List Int} {occ : Nat → Int}
    {ord : List Nat} {c : Nat} (h : PickSpec p caps occ ord c) : c ∈ ord := by
  unfold PickSpec at h
  cases hfind : ord.find? (roomAt p caps occ) with
  | some c0 =>
    rw [hfind] at h
    exact h ▸ List.mem_of_find?_eq_some hfind
  | none =>
    rw [hfind] at h
    exact h.1

/-- Helper: the cluster loop of the greedy seeder succeeds as soon as every
argsorted row it walks is non-empty. -/
theorem greedyAux_total (pops : Nat → Int) (caps : List Int)
    (ordOf : Nat → List Nat) :
    ∀ (rem i : Nat) (occ : Nat → Int),
      (∀ k < rem, ordOf (i + k) ≠ []) →
      ∃ r, greedyAux pops caps ordOf rem i occ = some r := by
  intro rem
  induction rem with
  | zero => intro i occ _; exact ⟨[], rfl⟩
  | succ rem ih =>
    intro i occ hne
    have h0 : ordOf i ≠ [] := by
      have := hne 0 (Nat.succ_pos rem)
      rwa [Nat.add_zero] at this
    match hord : ordOf i with
    | [] => exact absurd hord h0
    | j0 :: rest =>
      obtain ⟨r, hr⟩ := ih (i + 1)
        (fun j => if j = pickGo (pops i) caps occ (j0 :: rest) j0 none then occ j + pops i else occ j)
        (fun k hk => by
          have h2 : i + 1 + k = i + (k + 1) := by omega
          rw [h2]
          exact hne (k + 1) (Nat.succ_lt_succ hk))
      refine ⟨pickGo (pops i) caps occ (j0 :: rest) j0 none :: r, ?_⟩
      rw [greedyAux, hord, pickShelter]
      dsimp only
      rw [hr]

/-- Occupancy accumulated by the first k genes of a chromosome: shelter j
holds the summed populations of the clusters before k that selected it. -/
def occBefore (pops : Nat → Int) (r : List Nat) (k : Nat) (j : Nat) : Int :=
  ∑ t ∈ Finset.range k, if r.getD t 0 = j then pops t else 0

/-- Helper: every chromosome the cluster loop returns selects, at each
position, exactly the shelter the claim description picks with respect to the
occupancy its own earlier genes accumulated. -/
theorem greedyAux_spec (pops : Nat → Int) (caps : List Int)
    (ordOf : Nat → List Nat)
    (hcaps : ∀ i, ∀ j ∈ ordOf i, 0 < caps.getD j 0) :
    ∀ (rem i : Nat) (occ : Nat → Int) (r : List Nat),
      greedyAux pops caps ordOf rem i occ = some r →
      r.length = rem ∧
      ∀ k, k < rem →
        PickSpec (pops (i + k)) caps
          (fun j => occ j +
            ∑ t ∈ Finset.range k, if r.getD t 0 = j then pops (i + t) else 0)
          (ordOf (i + k)) (r.getD k 0) := by
  intro rem
  induction rem with
  | zero =>
    intro i occ r h
    rw [greedyAux, Option.some_inj] at h
    subst h
    exact ⟨rfl, fun k hk => absurd hk (Nat.not_lt_zero k)⟩
  | succ rem ih =>
    intro i occ r h
    rw [greedyAux] at h
    cases hpick : pickShelter (pops i) caps occ (ordOf i) with
    | none => rw [hpick] at h; exact absurd h (by simp)
    | some c =>
      rw [hpick] at h
      dsimp only at h
      cases hrec : greedyAux pops caps ordOf rem (i + 1)
          (fun j => if j = c then occ j + pops i else occ j) with
      | none => rw [hrec] at h; exact absurd h (by simp)
      | some rest =>
        rw [hrec, Option.some_inj] at h
        subst h
        obtain ⟨hlen, hspec⟩ := ih (i + 1) _ rest hrec
        refine ⟨by simp [hlen], ?_⟩
        intro k hk
        cases k with
        | zero =>
          have hofun : (fun j => occ j + ∑ t ∈ Finset.range 0,
              if (c :: rest).getD t 0 = j then pops (i + t) else 0) = occ := by
            funext j; simp
          rw [Nat.add_zero, hofun]
          exact pickShelter_spec _ _ _ _ _ (hcaps i) hpick
        | succ k =>
          have hk2 : k < rem := Nat.lt_of_succ_lt_succ hk
          have hs := hspec k hk2
          have hidx : i + (k + 1) = i + 1 + k := by omega
          have hofun : (fun j => occ j + ∑ t ∈ Finset.range (k + 1),
                if (c :: rest).getD t 0 = j then pops (i + t) else 0) =
              (fun j => (if j = c then occ j + pops i else occ j) +
                ∑ t ∈ Finset.range k,
                  if rest.getD t 0 = j then pops (i + 1 + t) else 0) := by
            funext j
            rw [Finset.sum_range_succ']
            simp only [List.getD_cons_succ, List.getD_cons_zero, Nat.add_zero]
            have h2 : (∑ t ∈ Finset.range k,
                  if rest.getD t 0 = j then pops (i + (t + 1)) else 0) =
                ∑ t ∈ Finset.range k,
                  if rest.getD t 0 = j then pops (i + 1 + t) else 0 := by
              refine Finset.sum_congr rfl ?_
              intro t _
              have h3 : i + (t + 1) = i + 1 + t := by omega
              rw [h3]
            rw [h2]
            by_cases hc : j = c
            · rw [if_pos hc, if_pos hc.symm]
              ring
            · rw [if_neg hc, if_neg (fun h => hc h.symm)]
              ring
          rw [hidx, hofun]
          exact hs

/-- C3: for every distance matrix, cluster list and list of positive-capacity
shelters (with every possible argsort outcome for each row), the greedy seeder
succeeds and processes clusters in input order: each cluster takes the first
shelter in ascending distance order whose running occupancy plus the cluster
population fits the capacity, otherwise a shelter minimizing the overflow
ratio (occupied + population) / max(1, capacity); the chosen shelter then
carries the cluster population in the running occupancy seen by the following
clusters. -/
theorem c3_greedy_seeder (clusters : List Cluster) (shelters : List Shelter)
    (dist : Nat → Nat → Entry) (ordOf : Nat → List Nat)
    (hcap : ∀ s ∈ shelters, 0 < s.capacity)
    (hns : 0 < shelters.length)
    (hord : ∀ i, IsArgsortBy leEntry (fun j => dist i j) shelters.length (ordOf i)) :
    ∃ r, greedyChromosome clusters shelters ordOf = some r ∧
      r.length = clusters.length ∧
      ∀ k, k < clusters.length →
        r.getD k 0 < shelters.length ∧
        PickSpec ((clusters.getD k default).pop)
          (shelters.map (fun s => s.capacity))
          (occBefore (fun t => (clusters.getD t default).pop) r k)
          (ordOf k) (r.getD k 0) := by
  have hcaps : ∀ i, ∀ j ∈ ordOf i,
      0 < (shelters.map (fun s => s.capacity)).getD j 0 := by
    intro i j hj
    have hjn : j < shelters.length := ((hord i).mem_iff j).mp hj
    have hjn2 : j < (shelters.map (fun s => s.capacity)).length := by simpa using hjn
    rw [List.getD_eq_getElem _ _ hjn2, List.getElem_map]
    exact hcap _ (List.getElem_mem hjn)
  have hne : ∀ k < clusters.length, ordOf (0 + k) ≠ [] := by
    intro k _
    intro hnil
    have hlen := (hord (0 + k)).length_eq
    rw [hnil] at hlen
    simp at hlen
    omega
  obtain ⟨r, hr⟩ := greedyAux_total (fun i => (clusters.getD i default).pop)
    (shelters.map (fun s => s.capacity)) ordOf clusters.length 0 (fun _ => 0) hne
  obtain ⟨hlen, hspec⟩ := greedyAux_spec _ _ _ hcaps clusters.length 0 _ r hr
  refine ⟨r, hr, hlen, ?_⟩
  intro k hk
  have hs := hspec k hk
  rw [Nat.zero_add] at hs
  have hofun : (fun j => (fun _ => (0 : Int)) j +
      ∑ t ∈ Finset.range k,
        if r.getD t 0 = j then (clusters.getD (0 + t) default).pop else 0) =
      occBefore (fun t => (clusters.getD t default).pop) r k := by
    funext j
    unfold occBefore
    simp
  rw [hofun] at hs
  refine ⟨?_, hs⟩
  exact ((hord k).mem_iff _).mp hs.mem

/-- C3 witness: the greedy characterization applied to one cluster and two
shelters with a concrete argsort outcome. -/
theorem c3_greedy_seeder_witness :
    ∃ r, greedyChromosome [⟨1, 5, 0, 0⟩]
        [⟨"A", some 2, 10, 0, 0⟩, ⟨"B", some 3, 10, 1, 1⟩]
        (fun _ => [0, 1]) = some r ∧
      r.length = 1 ∧
      ∀ k, k < 1 →
        r.getD k 0 < 2 ∧
        PickSpec 5 [10, 10]
          (occBefore (fun t =>
            (([⟨1, 5, 0, 0⟩] : List Cluster).getD t default).pop) r k)
          [0, 1] (r.getD k 0) := by
  have h := c3_greedy_seeder [⟨1, 5, 0, 0⟩]
    [⟨"A", some 2, 10, 0, 0⟩, ⟨"B", some 3, 10, 1, 1⟩]
    (fun i j => some (j : ℚ)) (fun _ => [0, 1])
    (by decide) (by decide)
    (fun i => show IsArgsortBy leEntry (fun j => some (j : ℚ)) 2 [0, 1] from
      ⟨by decide, by decide⟩)
  simpa using h

/-- Helper: the shelter-selection loop only returns the initial candidate or a
walked shelter, with no side conditions. -/
theorem pickGo_mem (p : Int) (caps : List Int) (occ : Nat → Int) :
    ∀ (ord : List Nat) (best : Nat) (minR : Option ℚ),
      pickGo p caps occ ord best minR = best ∨
        pickGo p caps occ ord best minR ∈ ord := by
  intro ord
  induction ord with
  | nil => intro best minR; exact Or.inl rfl
  | cons j rest ih =>
    intro best minR
    rw [pickGo]
    by_cases h1 : ratioFn p caps occ j ≤ 1
    · rw [if_pos h1]; exact Or.inr (by simp)
    · rw [if_neg h1]
      by_cases h2 : ltMin? (ratioFn p caps occ j) minR = true
      · rw [if_pos h2]
        rcases ih j (some (ratioFn p caps occ j)) with h | h
        · exact Or.inr (by simp [h])
        · exact Or.inr (by simp [h])
      · rw [if_neg h2]
        rcases ih best minR with h | h
        · exact Or.inl h
        · exact Or.inr (by simp [h])

/-- Helper: a selected shelter is a member of the walked order. -/
theorem pickShelter_mem (p : Int) (caps : List Int) (occ : Nat → Int)
    (ord : List Nat) (c : Nat) (h : pickShelter p caps occ ord = some c) :
    c ∈ ord := by
  match ord with
  | [] => simp [pickShelter] at h
  | j0 :: rest =>
    rw [pickShelter, Option.some_inj] at h
    rcases pickGo_mem p caps occ (j0 :: rest) j0 none with h2 | h2
    · rw [← h, h2]; simp
    · rw [← h]; exact h2

/-- Helper: shape of any successful greedy run, with no capacity hypotheses:
one gene per remaining cluster, each gene drawn from its argsorted row. -/
theorem greedyAux_shape (pops : Nat → Int) (caps : List Int)
    (ordOf : Nat → List Nat) :
    ∀ (rem i : Nat) (occ : Nat → Int) (r : List Nat),
      greedyAux pops caps ordOf rem i occ = some r →
      r.length = rem ∧ ∀ k, k < rem → r.getD k 0 ∈ ordOf (i + k) := by
  intro rem
  induction rem with
  | zero =>
    intro i occ r h
    rw [greedyAux, Option.some_inj] at h
    subst h
    exact ⟨rfl, fun k hk => absurd hk (Nat.not_lt_zero k)⟩
  | succ rem ih =>
    intro i occ r h
    rw [greedyAux] at h
    cases hpick : pickShelter (pops i) caps occ (ordOf i) with
    | none => rw [hpick] at h; exact absurd h (by simp)
    | some c =>
      rw [hpick] at h
      dsimp only at h
      cases hrec : greedyAux pops caps ordOf rem (i + 1)
          (fun j => if j = c then occ j + pops i else occ j) with
      | none => rw [hrec] at h; exact absurd h (by simp)
      | some rest =>
        rw [hrec, Option.some_inj] at h
        subst h
        obtain ⟨hlen, hmem⟩ := ih (i + 1) _ rest hrec
        refine ⟨by simp [hlen], ?_⟩
        intro k hk
        cases k with
        | zero =>
          rw [Nat.add_zero]
          exact pickShelter_mem _ _ _ _ _ hpick
        | succ k =>
          have h2 := hmem k (Nat.lt_of_succ_lt_succ hk)
          have h3 : i + (k + 1) = i + 1 + k := by omega
          rw [h3]
          exact h2

/-- Gene reassignment shared by _mutate and the greedy perturbation of
_init_population: take the 3 nearest shelters of cluster i in its argsorted
row and pick one of them; the random.choice outcome is modelled by an oracle
index reduced modulo the candidate count. -/
def pickTop3 (ordOf : Nat → List Nat) (pick : Nat → Nat) (i : Nat) : Nat :=
  ((ordOf i).take 3).getD (pick i % ((ordOf i).take 3).length) 0

/-- GeneticEvacuationPlanner._mutate (textually identical to
EvolutionMixin._mutate): every gene flips with the mutation coin, and a
flipped gene is reassigned to one of the 3 nearest shelters of its cluster. -/
def mutate (ordOf : Nat → List Nat) (coin : Nat → Bool) (pick : Nat → Nat)
    (chrom : List Nat) : List Nat :=
  (List.range chrom.length).map fun i =>
    if coin i then pickTop3 ordOf pick i else chrom.getD i 0

/-- GeneticEvacuationPlanner._crossover (textually identical to
EvolutionMixin._crossover): two-point crossover swapping the slice [a, b);
parents of fewer than 3 genes are returned unchanged. -/
def crossover (p1 p2 : List Nat) (a b : Nat) : List Nat × List Nat :=
  if p1.length < 3 then (p1, p2)
  else (p1.take a ++ (p2.take b).drop a ++ p1.drop b,
        p2.take a ++ (p1.take b).drop a ++ p2.drop b)

/-- GeneticEvacuationPlanner._init_population (textually identical to
EvolutionMixin._init_population): greedy_count perturbed copies of the greedy
chromosome followed by fully random chromosomes; int(pop_size * 0.8) is
modelled as the integer part pop_size * 8 / 10, and random.randint(0, n - 1)
by an oracle value reduced modulo n. -/
def initPopulation (popSize nClusters nShelters : Nat) (greedy : List Nat)
    (ordOf : Nat → List Nat) (coin : Nat → Nat → Bool)
    (pick : Nat → Nat → Nat) (rnd : Nat → Nat → Nat) : List (List Nat) :=
  let greedyCount := popSize * 8 / 10
  let randomCount := popSize - greedyCount
  ((List.range greedyCount).map fun t => mutate ordOf (coin t) (pick t) greedy)
    ++ ((List.range randomCount).map fun t =>
        (List.range nClusters).map fun i => rnd t i % nShelters)

/-- Helper: a top-3 reassignment lands on a valid shelter index whenever the
argsorted row is a permutation of a non-empty index range. -/
theorem pickTop3_lt (ordOf : Nat → List Nat) (pick : Nat → Nat) (i n : Nat)
    (hlen : (ordOf i).length = n) (hmem : ∀ j ∈ ordOf i, j < n) (hn : 0 < n) :
    pickTop3 ordOf pick i < n := by
  unfold pickTop3
  have h3 : ((ordOf i).take 3).length = min 3 n := by
    simp [List.length_take, hlen]
  have hpos : 0 < ((ordOf i).take 3).length := by omega
  have hidx : pick i % ((ordOf i).take 3).length < ((ordOf i).take 3).length :=
    Nat.mod_lt _ hpos
  exact hmem _ (List.take_subset _ _ (getD_mem_of_lt _ 0 _ hidx))

/-- Helper: mutation preserves chromosome length and gene validity. -/
theorem mutate_valid (ordOf : Nat → List Nat) (coin : Nat → Bool)
    (pick : Nat → Nat) (chrom : List Nat) (n : Nat)
    (hordlen : ∀ i, (ordOf i).length = n)
    (hordmem : ∀ i, ∀ j ∈ ordOf i, j < n) (hn : 0 < n)
    (hgene : ∀ g ∈ chrom, g < n) :
    (mutate ordOf coin pick chrom).length = chrom.length ∧
    ∀ g ∈ mutate ordOf coin pick chrom, g < n := by
  constructor
  · simp [mutate]
  · intro g hg
    rw [mutate, List.mem_map] at hg
    obtain ⟨i, hi, hgi⟩ := hg
    rw [List.mem_range] at hi
    by_cases hc : coin i = true
    · rw [if_pos hc] at hgi
      exact hgi ▸ pickTop3_lt ordOf pick i n (hordlen i) (hordmem i) hn
    · rw [if_neg hc] at hgi
      exact hgi ▸ hgene _ (getD_mem_of_lt chrom 0 i hi)

/-- Helper: two-point crossover preserves chromosome length and draws every
gene from one of the parents. -/
theorem crossover_valid (p1 p2 : List Nat) (a b n : Nat)
    (h1 : p1.length = n) (h2 : p2.length = n) (hab : a ≤ b) (hb : b ≤ n) :
    ((crossover p1 p2 a b).1.length = n ∧ (crossover p1 p2 a b).2.length = n) ∧
    ∀ g, (g ∈ (crossover p1 p2 a b).1 ∨ g ∈ (crossover p1 p2 a b).2) →
      g ∈ p1 ∨ g ∈ p2 := by
  unfold crossover
  by_cases h3 : p1.length < 3
  · rw [if_pos h3]
    exact ⟨⟨h1, h2⟩, fun g hg => hg⟩
  · rw [if_neg h3]
    constructor
    · constructor <;>
        · simp only [List.length_append, List.length_take, List.length_drop,
            h1, h2]
          omega
    · intro g hg
      rcases hg with hg | hg
      · simp only [List.mem_append] at hg
        rcases hg with (hg | hg) | hg
        · exact Or.inl (List.take_subset _ _ hg)
        · exact Or.inr (List.take_subset _ _ (List.drop_subset _ _ hg))
        · exact Or.inl (List.drop_subset _ _ hg)
      · simp only [List.mem_append] at hg
        rcases hg with (hg | hg) | hg
        · exact Or.inr (List.take_subset _ _ hg)
        · exact Or.inl (List.take_subset _ _ (List.drop_subset _ _ hg))
        · exact Or.inr (List.drop_subset _ _ hg)

/-- Helper: every successful greedy chromosome has one valid gene per
cluster. -/
theorem greedyChromosome_valid (clusters : List Cluster)
    (shelters : List Shelter) (dist : Nat → Nat → Entry)
    (ordOf : Nat → List Nat) (gc : List Nat)
    (hord : ∀ i, IsArgsortBy leEntry (fun j => dist i j) shelters.length (ordOf i))
    (hg : greedyChromosome clusters shelters ordOf = some gc) :
    gc.length = clusters.length ∧ ∀ g ∈ gc, g < shelters.length := by
  unfold greedyChromosome at hg
  obtain ⟨hlen, hmem⟩ := greedyAux_shape _ _ _ clusters.length 0 _ gc hg
  refine ⟨hlen, ?_⟩
  intro g hgm
  obtain ⟨k, hk, hgk⟩ := List.mem_iff_getElem.mp hgm
  have h2 := hmem k (hlen ▸ hk)
  rw [Nat.zero_add] at h2
  have h3 : gc.getD k 0 = g := by
    rw [List.getD_eq_getElem gc 0 hk, hgk]
  exact ((hord k).mem_iff g).mp (h3 ▸ h2)

/-- C2: with non-empty cluster and shelter lists, every chromosome produced by
population initialization, by two-point crossover of two valid chromosomes
(cut points a at most b at most the chromosome length, as random.sample of the
index range yields), or by mutation of a valid chromosome, has length exactly
the number of clusters and every gene a shelter index below the number of
shelters; quantified over every outcome of the random oracles and every
argsort outcome. -/
theorem c2_chromosome_invariants (clusters : List Cluster)
    (shelters : List Shelter) (dist : Nat → Nat → Entry)
    (ordOf : Nat → List Nat) (gc : List Nat) (popSize : Nat)
    (coin : Nat → Nat → Bool) (pick : Nat → Nat → Nat) (rnd : Nat → Nat → Nat)
    (coinM : Nat → Bool) (pickM : Nat → Nat) (p1 p2 : List Nat) (a b : Nat)
    (hnc : 0 < clusters.length) (hns : 0 < shelters.length)
    (hord : ∀ i, IsArgsortBy leEntry (fun j => dist i j) shelters.length (ordOf i))
    (hg : greedyChromosome clusters shelters ordOf = some gc)
    (hp1 : p1.length = clusters.length) (hp2 : p2.length = clusters.length)
    (hgene1 : ∀ g ∈ p1, g < shelters.length)
    (hgene2 : ∀ g ∈ p2, g < shelters.length)
    (hab : a ≤ b) (hb : b ≤ clusters.length) :
    (∀ c ∈ initPopulation popSize clusters.length shelters.length gc ordOf
        coin pick rnd, c.length = clusters.length ∧ ∀ g ∈ c, g < shelters.length) ∧
    ((crossover p1 p2 a b).1.length = clusters.length ∧
      (∀ g ∈ (crossover p1 p2 a b).1, g < shelters.length) ∧
      (crossover p1 p2 a b).2.length = clusters.length ∧
      (∀ g ∈ (crossover p1 p2 a b).2, g < shelters.length)) ∧
    ((mutate ordOf coinM pickM p1).length = clusters.length ∧
      ∀ g ∈ mutate ordOf coinM pickM p1, g < shelters.length) := by
  have hordlen : ∀ i, (ordOf i).length = shelters.length :=
    fun i => (hord i).length_eq
  have hordmem : ∀ i, ∀ j ∈ ordOf i, j < shelters.length :=
    fun i j hj => ((hord i).mem_iff j).mp hj
  obtain ⟨hgclen, hgcgene⟩ :=
    greedyChromosome_valid clusters shelters dist ordOf gc hord hg
  obtain ⟨⟨hx1, hx2⟩, hxg⟩ :=
    crossover_valid p1 p2 a b clusters.length hp1 hp2 hab hb
  refine ⟨?_, ⟨hx1, ?_, hx2, ?_⟩, ?_⟩
  · intro c hc
    rw [initPopulation, List.mem_append] at hc
    rcases hc with hc | hc
    · rw [List.mem_map] at hc
      obtain ⟨t, _, hct⟩ := hc
      obtain ⟨hml, hmg⟩ := mutate_valid ordOf (coin t) (pick t) gc
        shelters.length hordlen hordmem hns hgcgene
      subst hct
      exact ⟨hml.trans hgclen, hmg⟩
    · rw [List.mem_map] at hc
      obtain ⟨t, _, hct⟩ := hc
      subst hct
      constructor
      · simp
      · intro g hgm
        rw [List.mem_map] at hgm
        obtain ⟨i, _, hgi⟩ := hgm
        exact hgi ▸ Nat.mod_lt _ hns
  · intro g hgm
    rcases hxg g (Or.inl hgm) with h | h
    · exact hgene1 g h
    · exact hgene2 g h
  · intro g hgm
    rcases hxg g (Or.inr hgm) with h | h
    · exact hgene1 g h
    · exact hgene2 g h
  · obtain ⟨hml, hmg⟩ := mutate_valid ordOf coinM pickM p1 shelters.length
      hordlen hordmem hns hgene1
    exact ⟨hml.trans hp1, hmg⟩

/-- C2 witness: the operator invariants instantiated on three clusters, two
shelters, concrete oracles and concrete parents. -/
theorem c2_chromosome_invariants_witness :
    (∀ c ∈ initPopulation 5 3 2 [0, 0, 0] (fun _ => [0, 1]) (fun _ _ => true)
        (fun _ _ => 2) (fun _ _ => 7), c.length = 3 ∧ ∀ g ∈ c, g < 2) ∧
    ((crossover [0, 1, 0] [1, 0, 1] 1 2).1.length = 3 ∧
      (∀ g ∈ (crossover [0, 1, 0] [1, 0, 1] 1 2).1, g < 2) ∧
      (crossover [0, 1, 0] [1, 0, 1] 1 2).2.length = 3 ∧
      (∀ g ∈ (crossover [0, 1, 0] [1, 0, 1] 1 2).2, g < 2)) ∧
    ((mutate (fun _ => [0, 1]) (fun _ => true) (fun _ => 1) [0, 1, 0]).length = 3 ∧
      ∀ g ∈ mutate (fun _ => [0, 1]) (fun _ => true) (fun _ => 1) [0, 1, 0], g < 2) := by
  have h := c2_chromosome_invariants
    [⟨1, 1, 0, 0⟩, ⟨2, 1, 0, 0⟩, ⟨3, 1, 0, 0⟩]
    [⟨"A", some 2, 5, 0, 0⟩, ⟨"B", some 3, 5, 1, 1⟩]
    (fun i j => some (j : ℚ)) (fun _ => [0, 1]) [0, 0, 0] 5
    (fun _ _ => true) (fun _ _ => 2) (fun _ _ => 7)
    (fun _ => true) (fun _ => 1) [0, 1, 0] [1, 0, 1] 1 2
    (by decide) (by decide)
    (fun i => show IsArgsortBy leEntry (fun j => some (j : ℚ)) 2 [0, 1] from
      ⟨by decide, by decide⟩)
    (by norm_num [greedyChromosome, greedyAux, pickShelter, pickGo, ratioFn, ltMin?])
    (by decide) (by decide) (by decide) (by decide)
    (by decide) (by decide)
  simpa using h

/-- One parallel edge of the road multigraph as _path_to_coords reads it: the
optional length attribute and the optional geometry polyline. -/
structure EdgeInfo where
  elen : Option ℚ
  geom : Option (List (ℚ × ℚ))
deriving DecidableEq, Inhabited

/-- Road-graph environment consulted by _decode, with the library calls
modelled as oracles: hasNode is G.has_node, nodeX and nodeY the node
coordinate attributes, edgeData the non-empty parallel-edge dictionary of
G.get_edge_data (none when the node pair has no edge), nearestNode the
_find_nearest_node_robust lookup (which always produces a node), and
shortestPath the networkx shortest_path call, none standing for a raised
exception. -/
structure DecodeEnv where
  hasNode : Nat → Bool
  nodeX : Nat → ℚ
  nodeY : Nat → ℚ
  edgeData : Nat → Nat → Option (EdgeInfo × List EdgeInfo)
  nearestNode : ℚ → ℚ → Nat
  shortestPath : Nat → Nat → Option (List Nat)

/-- Comparison of optional edge lengths, a missing length counting as inf, as
in min(edge_dict.values(), key=lambda d: d.get(length, inf)). -/
def ltLen (a b : Option ℚ) : Bool :=
  match a, b with
  | none, _ => false
  | some _, none => true
  | some x, some y => decide (x < y)

/-- Python min over the parallel edges: scan left to right, replacing the
running best only on a strictly smaller length. -/
def minByLen : EdgeInfo → List EdgeInfo → EdgeInfo
  | best, [] => best
  | best, e :: es => minByLen (if ltLen e.elen best.elen then e else best) es

/-- Segment contributed by the k-th consecutive node pair of a path in
_path_to_coords: with no edge, the straight node-to-node step (and the start
node only at k = 0); otherwise the geometry of the shortest parallel edge, or
the two endpoints when no geometry is stored, dropping the duplicated
junction point when k is positive. -/
def stepSeg (env : DecodeEnv) (k u v : Nat) : List (ℚ × ℚ) :=
  match env.edgeData u v with
  | none =>
    (if k = 0 then [(env.nodeX u, env.nodeY u)] else []) ++
      [(env.nodeX v, env.nodeY v)]
  | some (e, es) =>
    let seg :=
      match (minByLen e es).geom with
      | some g => g
      | none => [(env.nodeX u, env.nodeY u), (env.nodeX v, env.nodeY v)]
    if k = 0 then seg else seg.drop 1

/-- GeneticEvacuationPlanner._path_to_coords (textually identical to
GeometryMixin._path_to_coords): concatenate the per-pair segments; a
single-node path, which leaves coords empty, yields that single node
coordinate. -/
def pathToCoords (env : DecodeEnv) (pathNodes : List Nat) : List (ℚ × ℚ) :=
  let coords := ((List.range (pathNodes.length - 1)).map fun k =>
    stepSeg env k (pathNodes.getD k 0) (pathNodes.getD (k + 1) 0)).flatten
  match coords, pathNodes with
  | [], n :: _ => [(env.nodeX n, env.nodeY n)]
  | c, _ => c

/-- One output record of _decode. -/
structure PlanRecord where
  from_node : Nat
  to_shelter : String
  pop : Int
  path : List (ℚ × ℚ)
  fallback : Bool
deriving DecidableEq, Inhabited

/-- One iteration of the _decode loop for cluster i assigned to shelter j:
re-resolve both endpoints (keeping the original identifiers for the output),
attempt the flood-weighted shortest path, and fall back to the straight
cluster-to-shelter segment when it raises. -/
def decodeRecord (env : DecodeEnv) (clusters : List Cluster)
    (shelters : List Shelter) (i j : Nat) : PlanRecord :=
  let c := clusters.getD i default
  let sh := shelters.getD j default
  let nodeId := if env.hasNode c.id then c.id else env.nearestNode c.lat c.lon
  let shelterNode :=
    match sh.node_id with
    | some s => if env.hasNode s then s else env.nearestNode sh.lat sh.lon
    | none => env.nearestNode sh.lat sh.lon
  match env.shortestPath nodeId shelterNode with
  | some pathNodes =>
    { from_node := c.id, to_shelter := sh.id, pop := c.pop,
      path := pathToCoords env pathNodes, fallback := false }
  | none =>
    { from_node := c.id, to_shelter := sh.id, pop := c.pop,
      path := [(c.lon, c.lat), (sh.lon, sh.lat)], fallback := true }

/-- GeneticEvacuationPlanner._decode (textually identical to
GeometryMixin._decode): one record per gene, in chromosome order. -/
def decode (env : DecodeEnv) (clusters : List Cluster)
    (shelters : List Shelter) (chrom : List Nat) : List PlanRecord :=
  (List.range chrom.length).map fun i =>
    decodeRecord env clusters shelters i (chrom.getD i 0)

/-- Helper: the identifier and population fields of a decoded record come
from the original cluster and shelter records in both branches of the
pathfinding attempt. -/
theorem decodeRecord_fields (env : DecodeEnv) (clusters : List Cluster)
    (shelters : List Shelter) (i j : Nat) :
    (decodeRecord env clusters shelters i j).from_node =
      (clusters.getD i default).id ∧
    (decodeRecord env clusters shelters i j).to_shelter =
      (shelters.getD j default).id ∧
    (decodeRecord env clusters shelters i j).pop =
      (clusters.getD i default).pop := by
  unfold decodeRecord
  dsimp only
  split <;> exact ⟨rfl, rfl, rfl⟩

/-- Helper: the i-th decoded record is the decodeRecord of cluster i and its
assigned gene. -/
theorem decode_getD (env : DecodeEnv) (clusters : List Cluster)
    (shelters : List Shelter) (chrom : List Nat) (i : Nat)
    (hi : i < chrom.length) :
    (decode env clusters shelters chrom).getD i default =
      decodeRecord env clusters shelters i (chrom.getD i 0) := by
  unfold decode
  have hlen : i < ((List.range chrom.length).map fun i =>
      decodeRecord env clusters shelters i (chrom.getD i 0)).length := by
    simpa using hi
  rw [List.getD_eq_getElem _ _ hlen, List.getElem_map, List.getElem_range]

/-- C9: for every valid chromosome, decode returns exactly one record per
cluster, in cluster input order, and record i carries the original cluster
identifier, the assigned shelter record's identifier and the cluster
population, independent of node re-resolution and of whether pathfinding
succeeded. -/
theorem c9_decode_preserves_ids (env : DecodeEnv) (clusters : List Cluster)
    (shelters : List Shelter) (chrom : List Nat)
    (hlen : chrom.length = clusters.length)
    (hgene : ∀ g ∈ chrom, g < shelters.length) :
    (decode env clusters shelters chrom).length = clusters.length ∧
    ∀ i, i < clusters.length →
      ((decode env clusters shelters chrom).getD i default).from_node =
        (clusters.getD i default).id ∧
      ((decode env clusters shelters chrom).getD i default).to_shelter =
        (shelters.getD (chrom.getD i 0) default).id ∧
      ((decode env clusters shelters chrom).getD i default).pop =
        (clusters.getD i default).pop := by
  constructor
  · simp [decode, hlen]
  · intro i hi
    rw [decode_getD env clusters shelters chrom i (hlen ▸ hi)]
    exact decodeRecord_fields env clusters shelters i (chrom.getD i 0)

/-- C9 witness: the record-preservation statement on a concrete two-cluster
instance whose second pathfinding attempt raises. -/
theorem c9_decode_preserves_ids_witness :
    (decode
        ⟨fun _ => true, fun _ => 0, fun _ => 0, fun _ _ => none, fun _ _ => 0,
          fun u v => if u = v then some [u] else none⟩
        [⟨1, 10, 0, 0⟩, ⟨2, 20, 1, 1⟩]
        [⟨"A", some 1, 50, 0, 0⟩, ⟨"B", some 9, 50, 1, 1⟩]
        [0, 1]).length = 2 ∧
    ∀ i, i < 2 →
      ((decode
          ⟨fun _ => true, fun _ => 0, fun _ => 0, fun _ _ => none, fun _ _ => 0,
            fun u v => if u = v then some [u] else none⟩
          [⟨1, 10, 0, 0⟩, ⟨2, 20, 1, 1⟩]
          [⟨"A", some 1, 50, 0, 0⟩, ⟨"B", some 9, 50, 1, 1⟩]
          [0, 1]).getD i default).from_node =
        (([⟨1, 10, 0, 0⟩, ⟨2, 20, 1, 1⟩] : List Cluster).getD i default).id ∧
      ((decode
          ⟨fun _ => true, fun _ => 0, fun _ => 0, fun _ _ => none, fun _ _ => 0,
            fun u v => if u = v then some [u] else none⟩
          [⟨1, 10, 0, 0⟩, ⟨2, 20, 1, 1⟩]
          [⟨"A", some 1, 50, 0, 0⟩, ⟨"B", some 9, 50, 1, 1⟩]
          [0, 1]).getD i default).to_shelter =
        (([⟨"A", some 1, 50, 0, 0⟩, ⟨"B", some 9, 50, 1, 1⟩] : List Shelter).getD
          (([0, 1] : List Nat).getD i 0) default).id ∧
      ((decode
          ⟨fun _ => true, fun _ => 0, fun _ => 0, fun _ _ => none, fun _ _ => 0,
            fun u v => if u = v then some [u] else none⟩
          [⟨1, 10, 0, 0⟩, ⟨2, 20, 1, 1⟩]
          [⟨"A", some 1, 50, 0, 0⟩, ⟨"B", some 9, 50, 1, 1⟩]
          [0, 1]).getD i default).pop =
        (([⟨1, 10, 0, 0⟩, ⟨2, 20, 1, 1⟩] : List Cluster).getD i default).pop := by
  have h := c9_decode_preserves_ids
    ⟨fun _ => true, fun _ => 0, fun _ => 0, fun _ _ => none, fun _ _ => 0,
      fun u v => if u = v then some [u] else none⟩
    [⟨1, 10, 0, 0⟩, ⟨2, 20, 1, 1⟩]
    [⟨"A", some 1, 50, 0, 0⟩, ⟨"B", some 9, 50, 1, 1⟩]
    [0, 1] (by decide) (by decide)
  simpa using h

/-- C10: when a cluster node is present in the graph and the assigned shelter
resolves to that same node, decode emits a non-fallback record whose path is
the single coordinate pair of that node (networkx shortest_path returns the
one-node path [v] for source = target, the hypothesis hsp); a decoded
non-fallback path can therefore contain fewer than two points. -/
theorem c10_decode_single_point (env : DecodeEnv) (clusters : List Cluster)
    (shelters : List Shelter) (chrom : List Nat) (i : Nat)
    (hlen : chrom.length = clusters.length) (hi : i < clusters.length)
    (hin : env.hasNode (clusters.getD i default).id = true)
    (hsh : (shelters.getD (chrom.getD i 0) default).node_id =
      some (clusters.getD i default).id)
    (hsp : env.shortestPath (clusters.getD i default).id
        (clusters.getD i default).id = some [(clusters.getD i default).id]) :
    ((decode env clusters shelters chrom).getD i default).fallback = false ∧
    ((decode env clusters shelters chrom).getD i default).path =
      [(env.nodeX (clusters.getD i default).id,
        env.nodeY (clusters.getD i default).id)] := by
  rw [decode_getD env clusters shelters chrom i (hlen ▸ hi)]
  unfold decodeRecord
  dsimp only
  rw [hsh]
  dsimp only
  rw [if_pos hin, if_pos hin, hsp]
  dsimp only
  constructor
  · rfl
  · rfl

/-- C10 witness: a concrete cluster whose node is also its assigned shelter
node decodes to a one-point non-fallback path. -/
theorem c10_decode_single_point_witness :
    ((decode
        ⟨fun _ => true, fun n => (n : ℚ), fun n => (n : ℚ) + 1,
          fun _ _ => none, fun _ _ => 0, fun u v => if u = v then some [u] else none⟩
        [⟨7, 10, 0, 0⟩] [⟨"A", some 7, 50, 0, 0⟩] [0]).getD 0 default).fallback =
      false ∧
    ((decode
        ⟨fun _ => true, fun n => (n : ℚ), fun n => (n : ℚ) + 1,
          fun _ _ => none, fun _ _ => 0, fun u v => if u = v then some [u] else none⟩
        [⟨7, 10, 0, 0⟩] [⟨"A", some 7, 50, 0, 0⟩] [0]).getD 0 default).path =
      [((7 : ℚ), (7 : ℚ) + 1)] := by
  have h := c10_decode_single_point
    ⟨fun _ => true, fun n => (n : ℚ), fun n => (n : ℚ) + 1,
      fun _ _ => none, fun _ _ => 0, fun u v => if u = v then some [u] else none⟩
    [⟨7, 10, 0, 0⟩] [⟨"A", some 7, 50, 0, 0⟩] [0] 0
    (by decide) (by decide) (by decide) (by decide) (by decide)
  simpa using h

/-- Construction of GeneticEvacuationPlanner followed by run, to the extent
the empty-input behaviour needs: __init__ unconditionally computes the cost
matrices and then the greedy chromosome (whose IndexError on int(order[0]) is
modelled by none), and only afterwards can run return [] when either input
list is empty, before entering the generational loop.  gaPlan stands for the
plan the full generational pipeline would return on non-empty inputs, which
the empty-input claim never reaches. -/
def constructAndRun (clusters : List Cluster) (shelters : List Shelter)
    (ordOf : Nat → List Nat) (gaPlan : List PlanRecord) :
    Option (List PlanRecord) :=
  match greedyChromosome clusters shelters ordOf with
  | none => none
  | some _ =>
    if clusters.isEmpty || shelters.isEmpty then some [] else some gaPlan

/-- C4: with an empty cluster list, construction and run indeed return the
empty plan without error; but with a non-empty cluster list and an empty
shelter list, construction raises IndexError inside
_compute_greedy_chromosome at int(order[0]) (np.argsort of an empty row is
empty) before the empty-input guard of run can fire, so the claim fails on
the code. -/
theorem c4_empty_input_bug :
    constructAndRun [⟨1, 5, 0, 0⟩] [] (fun _ => []) [] = none ∧
    constructAndRun [] [] (fun _ => []) [] = some [] ∧
    constructAndRun [] [⟨"S", some 1, 10, 0, 0⟩] (fun _ => [0]) [] = some [] :=
  ⟨rfl, rfl, rfl⟩

/-- Result of the two single-source Dijkstra calls of _compute_matrices for
one shelter node: none models a raised exception; otherwise the first map
gives the flood-weighted path length and the second the raw path length to
each node, none for an unreachable node. -/
abbrev SsspResult := (Nat → Option ℚ) × (Nat → Option ℚ)

/-- Great-circle fallback of _compute_matrices: Euclidean distance in degrees
(sqrtA standing for float math.sqrt) times 111,000. -/
def euclidFallback (sqrtA : ℚ → ℚ) (c : Cluster) (sh : Shelter) : ℚ :=
  sqrtA ((c.lat - sh.lat) ^ 2 + (c.lon - sh.lon) ^ 2) * 111000

/-- Entry (i, j) of the dist and time matrices as _compute_matrices in
evacuation_ga.py writes them (textually identical in setup_mixin.py): a
shelter with no resolvable node fills its whole column with the Euclidean
fallback; a resolvable shelter whose Dijkstra calls raise leaves its column
at the +infinity the matrices were initialized with (the except branch does
continue); otherwise the entry holds the path length when the cluster node
was reached and stays +infinity otherwise. -/
def matrixEntries (hasNode : Nat → Bool) (sssp : Nat → Option SsspResult)
    (sqrtA : ℚ → ℚ) (clusters : List Cluster) (shelters : List Shelter)
    (i j : Nat) : Entry × Entry :=
  match shelters.get? j, clusters.get? i with
  | some sh, some c =>
    match sh.node_id with
    | none =>
      (some (euclidFallback sqrtA c sh),
        some (euclidFallback sqrtA c sh / WALKING_SPEED_MS))
    | some s =>
      if hasNode s then
        match sssp s with
        | none => (none, none)
        | some (fl, raw) =>
          (fl c.id, (raw c.id).map (fun d => d / WALKING_SPEED_MS))
      else
        (some (euclidFallback sqrtA c sh),
          some (euclidFallback sqrtA c sh / WALKING_SPEED_MS))
  | _, _ => (none, none)

/-- C5 counterexample: a shelter with a perfectly resolvable graph node whose
Dijkstra computation raises leaves the matrix entry at +infinity instead of
the claimed great-circle fallback value. -/
theorem c5_counterexample :
    matrixEntries (fun _ => true) (fun _ => none) (fun x => x)
      [⟨1, 10, 0, 0⟩] [⟨"S", some 5, 100, 1, 1⟩] 0 0 = (none, none) ∧
    (none : Entry) ≠
      some (euclidFallback (fun x => x) ⟨1, 10, 0, 0⟩ ⟨"S", some 5, 100, 1, 1⟩) :=
  ⟨rfl, fun h => Option.noConfusion h⟩

/-- C5 amended: only a shelter with no resolvable graph node (node_id absent
or not in the graph) gets the per-cluster great-circle fallback, with the
time entry the distance over the walking speed and nothing left at
+infinity; a shelter whose shortest-path computation raises leaves both
entries at +infinity for every cluster. -/
theorem c5_matrix_fallback (hasNode : Nat → Bool)
    (sssp : Nat → Option SsspResult) (sqrtA : ℚ → ℚ)
    (clusters : List Cluster) (shelters : List Shelter) (i j : Nat)
    (sh : Shelter) (c : Cluster)
    (hj : shelters.get? j = some sh) (hi : clusters.get? i = some c) :
    ((sh.node_id = none ∨ ∃ s, sh.node_id = some s ∧ hasNode s = false) →
      matrixEntries hasNode sssp sqrtA clusters shelters i j =
        (some (euclidFallback sqrtA c sh),
          some (euclidFallback sqrtA c sh / WALKING_SPEED_MS))) ∧
    (∀ s, sh.node_id = some s → hasNode s = true → sssp s = none →
      matrixEntries hasNode sssp sqrtA clusters shelters i j = (none, none)) := by
  constructor
  · intro hcase
    unfold matrixEntries
    rw [hj, hi]
    dsimp only
    rcases hcase with hnone | ⟨s, hs, hfalse⟩
    · rw [hnone]
    · rw [hs]
      dsimp only
      rw [hfalse]
      rfl
  · intro s hs htrue hraise
    unfold matrixEntries
    rw [hj, hi]
    dsimp only
    rw [hs]
    dsimp only
    rw [htrue, hraise]
    rfl

/-- C5 witness: both halves of the amended statement on concrete shelters,
one with an unresolvable node and one whose Dijkstra raises. -/
theorem c5_matrix_fallback_witness :
    matrixEntries (fun n => n == 5) (fun _ => none) (fun x => x)
      [⟨1, 10, 0, 0⟩] [⟨"A", none, 100, 1, 1⟩] 0 0 =
      (some (euclidFallback (fun x => x) ⟨1, 10, 0, 0⟩ ⟨"A", none, 100, 1, 1⟩),
        some (euclidFallback (fun x => x) ⟨1, 10, 0, 0⟩ ⟨"A", none, 100, 1, 1⟩ /
          WALKING_SPEED_MS)) ∧
    matrixEntries (fun n => n == 5) (fun _ => none) (fun x => x)
      [⟨1, 10, 0, 0⟩] [⟨"B", some 5, 100, 1, 1⟩] 0 0 = (none, none) := by
  constructor
  · exact (c5_matrix_fallback (fun n => n == 5) (fun _ => none) (fun x => x)
      [⟨1, 10, 0, 0⟩] [⟨"A", none, 100, 1, 1⟩] 0 0 ⟨"A", none, 100, 1, 1⟩
      ⟨1, 10, 0, 0⟩ (by decide) (by decide)).1 (Or.inl rfl)
  · exact (c5_matrix_fallback (fun n => n == 5) (fun _ => none) (fun x => x)
      [⟨1, 10, 0, 0⟩] [⟨"B", some 5, 100, 1, 1⟩] 0 0 ⟨"B", some 5, 100, 1, 1⟩
      ⟨1, 10, 0, 0⟩ (by decide) (by decide)).2 5 rfl (by decide) rfl

/-- Minimum of a list of rationals, none for the empty list. -/
def listMinQ : List ℚ → Option ℚ
  | [] => none
  | x :: xs => some (xs.foldl min x)

/-- Helper: a min fold is bounded by its initial accumulator. -/
theorem foldl_min_le_init (l : List ℚ) : ∀ a : ℚ, l.foldl min a ≤ a := by
  induction l with
  | nil => intro a; exact le_refl a
  | cons y ys ih =>
    intro a
    calc ys.foldl min (min a y) ≤ min a y := ih (min a y)
    _ ≤ a := min_le_left a y

/-- Helper: a min fold is bounded by every list element. -/
theorem foldl_min_le_mem (l : List ℚ) :
    ∀ (a x : ℚ), x ∈ l → l.foldl min a ≤ x := by
  induction l with
  | nil => intro a x hx; simp at hx
  | cons y ys ih =>
    intro a x hx
    rcases List.mem_cons.mp hx with h | h
    · subst h
      calc ys.foldl min (min a x) ≤ min a x := foldl_min_le_init ys (min a x)
      _ ≤ x := min_le_right a x
    · exact ih (min a y) x h

/-- Helper: a min fold equals the initial accumulator or some list element. -/
theorem foldl_min_mem (l : List ℚ) :
    ∀ a : ℚ, l.foldl min a = a ∨ l.foldl min a ∈ l := by
  induction l with
  | nil => intro a; exact Or.inl rfl
  | cons y ys ih =>
    intro a
    rcases ih (min a y) with h | h
    · rcases min_choice a y with h2 | h2
      · exact Or.inl (by rw [List.foldl_cons, h, h2])
      · refine Or.inr ?_
        rw [List.foldl_cons, h, h2]
        simp
    · exact Or.inr (by simp [h])

/-- Helper: the list minimum is a lower bound of every member. -/
theorem listMinQ_le_of_mem (l : List ℚ) (x : ℚ) (hx : x ∈ l) (m : ℚ)
    (hm : listMinQ l = some m) : m ≤ x := by
  match l with
  | [] => simp at hx
  | y :: ys =>
    rw [listMinQ, Option.some_inj] at hm
    subst hm
    rcases List.mem_cons.mp hx with h | h
    · subst h
      exact foldl_min_le_init ys x
    · exact foldl_min_le_mem ys y x h

/-- Helper: the list minimum is attained by a member. -/
theorem listMinQ_mem (l : List ℚ) (m : ℚ) (hm : listMinQ l = some m) :
    m ∈ l := by
  match l with
  | [] => simp [listMinQ] at hm
  | y :: ys =>
    rw [listMinQ, Option.some_inj] at hm
    subst hm
    rcases foldl_min_mem ys y with h | h
    · simp [h]
    · simp [h]

/-- One generation step of GeneticEvacuationPlanner.run: the elite_n =
max(1, pop_size / 10) chromosomes at the lowest-fitness positions of the
argsort of the fitness scores are copied unchanged into the next population,
which is refilled up to pop_size with offspring chromosomes; offspring
stands for the selection, then crossover, then mutation pipeline, over all
of whose random outcomes the monotonicity theorem quantifies. -/
def nextGeneration (popSize : Nat) (pop : List (List Nat)) (ord : List Nat)
    (offspring : Nat → List Nat) : List (List Nat) :=
  ((ord.take (max 1 (popSize / 10))).map fun t => pop.getD t []) ++
    (List.range (popSize - max 1 (popSize / 10))).map offspring

/-- C6: over every outcome of the random choices (the offspring oracle and
every argsort outcome on the fitness scores), the minimum fitness value in
the population is non-increasing from one generation to the next, because
the elite_n = max(1, pop_size / 10) lowest-fitness chromosomes are carried
unchanged and fitness is a pure function of the chromosome and the fixed
matrices. -/
theorem c6_elitism_monotone (clusters : List Cluster) (shelters : List Shelter)
    (dist tmat : Nat → Nat → Entry) (popSize : Nat) (pop : List (List Nat))
    (ord : List Nat) (offspring : Nat → List Nat) (m m2 : ℚ)
    (hord : IsArgsortBy (fun a b : ℚ => decide (a ≤ b))
      (fun t => fitness clusters shelters dist tmat (pop.getD t []))
      pop.length ord)
    (hm : listMinQ (pop.map (fitness clusters shelters dist tmat)) = some m)
    (hm2 : listMinQ
      ((nextGeneration popSize pop ord offspring).map
        (fitness clusters shelters dist tmat)) = some m2) :
    m2 ≤ m := by
  have hpop : pop ≠ [] := by
    intro h
    rw [h] at hm
    simp [listMinQ] at hm
  have hlen : 0 < pop.length := List.length_pos.mpr hpop
  have hordlen : ord.length = pop.length := hord.length_eq
  cases ord with
  | nil =>
    rw [List.length_nil] at hordlen
    omega
  | cons t0 rest =>
    have hkey : ∀ k, k < pop.length →
        fitness clusters shelters dist tmat (pop.getD t0 []) ≤
          fitness clusters shelters dist tmat (pop.getD k []) := by
      intro k hk
      have hkmem : k ∈ t0 :: rest := (hord.mem_iff k).mpr hk
      rcases List.mem_cons.mp hkmem with h | h
      · subst h
        exact le_refl _
      · have hsort := (List.sorted_cons.mp hord.2).1 k h
        exact of_decide_eq_true hsort
    obtain ⟨k0, hk0⟩ : ∃ k0, max 1 (popSize / 10) = k0 + 1 :=
      ⟨max 1 (popSize / 10) - 1, by omega⟩
    have hmem : pop.getD t0 [] ∈ nextGeneration popSize pop (t0 :: rest) offspring := by
      unfold nextGeneration
      rw [hk0, List.take_succ_cons]
      exact List.mem_append_left _ (by simp)
    have hle2 : m2 ≤ fitness clusters shelters dist tmat (pop.getD t0 []) :=
      listMinQ_le_of_mem _ _
        (List.mem_map_of_mem (fitness clusters shelters dist tmat) hmem) _ hm2
    obtain ⟨c, hc, hfc⟩ := List.mem_map.mp (listMinQ_mem _ _ hm)
    obtain ⟨kc, hkc, hck⟩ := List.mem_iff_getElem.mp hc
    have hgd : pop.getD kc [] = c := by
      rw [List.getD_eq_getElem pop [] hkc, hck]
    have hle1 : fitness clusters shelters dist tmat (pop.getD t0 []) ≤ m := by
      have := hkey kc hkc
      rw [hgd, hfc] at this
      exact this
    exact le_trans hle2 hle1

/-- C6 witness: one generation step on a concrete one-chromosome population
with population size 2. -/
theorem c6_elitism_monotone_witness :
    fitness [⟨1, 10, 0, 0⟩] [⟨"A", some 1, 50, 0, 0⟩]
        (fun _ _ => some 3) (fun _ _ => some 4) [0] ≤
      fitness [⟨1, 10, 0, 0⟩] [⟨"A", some 1, 50, 0, 0⟩]
        (fun _ _ => some 3) (fun _ _ => some 4) [0] :=
  c6_elitism_monotone [⟨1, 10, 0, 0⟩] [⟨"A", some 1, 50, 0, 0⟩]
    (fun _ _ => some 3) (fun _ _ => some 4) 2 [[0]] [0] (fun _ => [0]) _ _
    ⟨by decide, by decide⟩ rfl
    (by simp [nextGeneration, listMinQ])

/-- Overflow excess of shelter j under a chromosome: assigned population
minus capacity when positive, else 0. -/
def excessAt (clusters : List Cluster) (shelters : List Shelter)
    (chrom : List Nat) (j : Nat) : Int :=
  if (shelters.getD j default).capacity < assignedPop clusters chrom j
  then assignedPop clusters chrom j - (shelters.getD j default).capacity
  else 0

/-- Helper: the penalty contribution of a shelter is the square of its excess
times the penalty constant. -/
theorem penaltyAt_eq_excess (clusters : List Cluster) (shelters : List Shelter)
    (chrom : List Nat) (j : Nat) :
    penaltyAt clusters shelters chrom j =
      excessAt clusters shelters chrom j ^ 2 * CAPACITY_PENALTY := by
  unfold penaltyAt excessAt
  by_cases h : (shelters.getD j default).capacity < assignedPop clusters chrom j
  · rw [if_pos h, if_pos h]
  · rw [if_neg h, if_neg h]
    norm_num

/-- C7: for chromosomes with identical per-cluster distance and time totals,
where one concentrates an excess of 100 in a single over-capacity shelter and
the other spreads 10 excess over each of 10 shelters, the concentrated
chromosome has strictly greater (worse) fitness: its penalty is 100^2 *
100,000 = 10^9 against 10 * 10^2 * 100,000 = 10^8. -/
theorem c7_concentrated_worse (clusters : List Cluster)
    (shelters : List Shelter) (dist tmat : Nat → Nat → Entry)
    (c1 c2 : List Nat) (j0 : Nat) (S : Finset Nat)
    (hlen1 : c1.length = clusters.length)
    (hlen2 : c2.length = clusters.length)
    (hgene1 : ∀ g ∈ c1, g < shelters.length)
    (hgene2 : ∀ g ∈ c2, g < shelters.length)
    (hcap : ∀ s ∈ shelters, 0 ≤ s.capacity)
    (hdist : claimTotal clusters dist c1 = claimTotal clusters dist c2)
    (htime : claimTotal clusters tmat c1 = claimTotal clusters tmat c2)
    (hj0 : j0 < shelters.length)
    (hex1 : excessAt clusters shelters c1 j0 = 100)
    (hex1z : ∀ j < shelters.length, j ≠ j0 → excessAt clusters shelters c1 j = 0)
    (hS : S ⊆ Finset.range shelters.length) (hcard : S.card = 10)
    (hex2 : ∀ j ∈ S, excessAt clusters shelters c2 j = 10)
    (hex2z : ∀ j < shelters.length, j ∉ S → excessAt clusters shelters c2 j = 0) :
    fitness clusters shelters dist tmat c2 <
      fitness clusters shelters dist tmat c1 := by
  rw [fitness_formula clusters shelters dist tmat c1 hlen1 hgene1 hcap,
    fitness_formula clusters shelters dist tmat c2 hlen2 hgene2 hcap,
    ← hdist, ← htime]
  have hp1 : claimPenalty clusters shelters c1 = ((10 ^ 9 : Int) : ℚ) := by
    unfold claimPenalty
    have h0 : ∀ b ∈ Finset.range shelters.length, b ≠ j0 →
        ((penaltyAt clusters shelters c1 b : Int) : ℚ) = 0 := by
      intro b hb hbne
      rw [penaltyAt_eq_excess, hex1z b (Finset.mem_range.mp hb) hbne]
      norm_num
    have h1 : j0 ∉ Finset.range shelters.length →
        ((penaltyAt clusters shelters c1 j0 : Int) : ℚ) = 0 :=
      fun habs => absurd (Finset.mem_range.mpr hj0) habs
    rw [Finset.sum_eq_single j0 h0 h1, penaltyAt_eq_excess, hex1]
    norm_num [CAPACITY_PENALTY]
  have hp2 : claimPenalty clusters shelters c2 = ((10 ^ 8 : Int) : ℚ) := by
    unfold claimPenalty
    have hzero : ∀ j ∈ Finset.range shelters.length, j ∉ S →
        ((penaltyAt clusters shelters c2 j : Int) : ℚ) = 0 := by
      intro j hj hnj
      rw [penaltyAt_eq_excess, hex2z j (Finset.mem_range.mp hj) hnj]
      norm_num
    rw [← Finset.sum_subset hS hzero]
    have hconst : ∀ j ∈ S, ((penaltyAt clusters shelters c2 j : Int) : ℚ) =
        ((10 ^ 7 : Int) : ℚ) := by
      intro j hj
      rw [penaltyAt_eq_excess, hex2 j hj]
      norm_num [CAPACITY_PENALTY]
    rw [Finset.sum_congr rfl hconst, Finset.sum_const, hcard]
    norm_num
  rw [hp1, hp2]
  norm_num

/-- C7 witness: ten clusters of population 10, ten shelters of capacity 0 and
constant matrices; piling all ten clusters on shelter 0 scores strictly worse
than spreading them over the ten shelters. -/
theorem c7_concentrated_worse_witness :
    fitness ((List.range 10).map fun k => (⟨k, 10, 0, 0⟩ : Cluster))
        ((List.range 10).map fun k => (⟨"S", some k, 0, 0, 0⟩ : Shelter))
        (fun _ _ => some 1) (fun _ _ => some 1) (List.range 10) <
      fitness ((List.range 10).map fun k => (⟨k, 10, 0, 0⟩ : Cluster))
        ((List.range 10).map fun k => (⟨"S", some k, 0, 0, 0⟩ : Shelter))
        (fun _ _ => some 1) (fun _ _ => some 1) (List.replicate 10 0) :=
  c7_concentrated_worse
    ((List.range 10).map fun k => (⟨k, 10, 0, 0⟩ : Cluster))
    ((List.range 10).map fun k => (⟨"S", some k, 0, 0, 0⟩ : Shelter))
    (fun _ _ => some 1) (fun _ _ => some 1)
    (List.replicate 10 0) (List.range 10) 0 (Finset.range 10)
    (by decide) (by decide) (by decide) (by decide) (by decide)
    rfl rfl
    (by decide) (by decide) (by decide) (by decide) (by decide)
    (by decide) (by decide)
